import Mathlib

/-!
Verification of the Maya File Cleaner frontend (`src/App.tsx`) and of the
cleaning engine it invokes, against the repository's specification.

The frontend is embedded shallowly: React state updates become explicit
state passing, the Tauri `invoke` calls become an explicit list of
per-target outcomes (a returned `CleaningResult` or a thrown error
string), and JavaScript string primitives (`String.prototype.replace`
with a string pattern, `includes`, `toLowerCase`, `endsWith`) are
embedded as executable functions on `List Char`.
-/

namespace MayaCleaner

/-- Embedding of a JavaScript prefix test: `leadsWith pat s` is true iff
`pat` occurs at the very start of `s`. -/
def leadsWith : List Char → List Char → Bool
  | [], _ => true
  | _ :: _, [] => false
  | a :: as, b :: bs => if a = b then leadsWith as bs else false

/-- Embedding of JavaScript `String.prototype.includes` with a string
argument: substring occurrence test. -/
def containsSub (pat : List Char) : List Char → Bool
  | [] => leadsWith pat []
  | c :: cs => leadsWith pat (c :: cs) || containsSub pat cs

/-- Embedding of JavaScript `String.prototype.replace` with a STRING
pattern (as used throughout `App.tsx`): only the first occurrence of
`pat` is replaced by `rep`; everything after it is copied verbatim. -/
def replaceFirstL (pat rep : List Char) : List Char → List Char
  | [] => if leadsWith pat [] then rep else []
  | c :: cs =>
    if leadsWith pat (c :: cs) then rep ++ (c :: cs).drop pat.length
    else c :: replaceFirstL pat rep cs

/-- Embedding of JavaScript `String.prototype.toLowerCase` (per-character
lowering, as the ASCII file suffixes used here need). -/
def lowerCl (l : List Char) : List Char := l.map Char.toLower

/-- Embedding of JavaScript `String.prototype.endsWith`. -/
def endsList (suf l : List Char) : Bool := leadsWith suf.reverse l.reverse

/-- Embeds `src/App.tsx` lines 5-11: the `CleaningResult` interface, the one
entity crossing the Tauri command boundary.  TypeScript `number` fields
are embedded as `Int`. -/
structure CleaningResult where
  status : String
  message : String
  details : List String
  cleaned_count : Int
  processed_count : Int
deriving DecidableEq

/-- Outcome of one `invoke<CleaningResult>('clean_maya_scene', ...)` call:
either a returned result or a thrown error (stringified in the catch). -/
inductive InvokeOutcome where
  | ok (r : CleaningResult)
  | err (e : String)
deriving DecidableEq

/-- Embeds `App.tsx` lines 189 and 229: the display transform applied to a detail
line: `detail.replace('infections', 'issues').replace('infected', 'affected')`. -/
def displayDetail (s : String) : String :=
  ⟨replaceFirstL "infected".data "affected".data
    (replaceFirstL "infections".data "issues".data s.data)⟩

/-- Embeds `App.tsx` lines 227 and 340: the display transform applied to a summary
message: `message.replace('infections', 'issues')` (no `infected`
replacement is applied to messages). -/
def displayMessage (s : String) : String :=
  ⟨replaceFirstL "infections".data "issues".data s.data⟩

/-- Embeds `App.tsx` lines 182-185: details that do not merely restate
"No issues found" / "Processing Maya file" (JS `includes`). -/
def relevantDetails (r : CleaningResult) : List String :=
  r.details.filter fun d =>
    !(containsSub "No issues found".data d.data) &&
    !(containsSub "Processing Maya file".data d.data)

/-- Mutable state accumulated by the `for` loop of `cleanSelectedFiles`
(`App.tsx` lines 171-201): the log lines appended so far, `successCount`
and `totalIssuesFixed`. -/
structure BatchState where
  log : List String
  successCount : Nat
  totalIssuesFixed : Int
deriving DecidableEq

/-- One iteration of the `for` loop of `cleanSelectedFiles`
(`App.tsx` lines 175-201): log the header line, then on success log the
relevant details (or a "No issues found" line) and bump the counters; on
a thrown error log the error line and continue. -/
def processFile (st : BatchState) (filePath : String) (o : InvokeOutcome) : BatchState :=
  match o with
  | .ok result =>
    let rel := relevantDetails result
    let newLog := if rel.isEmpty then ["No issues found in " ++ filePath]
                  else rel.map displayDetail
    { log := st.log ++ ("Cleaning file: " ++ filePath) :: newLog
      successCount := st.successCount + 1
      totalIssuesFixed := st.totalIssuesFixed + result.cleaned_count }
  | .err e =>
    { log := st.log ++ ["Cleaning file: " ++ filePath,
                        "Error processing " ++ filePath ++ ": " ++ e]
      successCount := st.successCount
      totalIssuesFixed := st.totalIssuesFixed }

/-- Folding step over one selected file paired with its invoke outcome. -/
def stepB (st : BatchState) (t : String × InvokeOutcome) : BatchState :=
  processFile st t.1 t.2

/-- The whole `for` loop of `cleanSelectedFiles` over the selected files,
each paired with the outcome its `invoke` call produces. -/
def runBatch (targets : List (String × InvokeOutcome)) : BatchState :=
  targets.foldl stepB ⟨[], 0, 0⟩

/-- Embeds `App.tsx` lines 203-210: the summary result built after the loop.
`status` is the literal `"success"` and `details` the literal `[]`. -/
def summaryResult (total : Nat) (st : BatchState) : CleaningResult :=
  { status := "success"
    message := "Processed " ++ toString st.successCount ++ " of " ++
      toString total ++ " files, fixed " ++ toString st.totalIssuesFixed ++ " issues"
    details := []
    cleaned_count := st.totalIssuesFixed
    processed_count := (st.successCount : Int) }

/-- Embeds `App.tsx` lines 164-219 (`cleanSelectedFiles`): with no selection the
function returns early and produces no summary; otherwise every selected
file is processed in order and a summary result is set. -/
def cleanSelectedFiles (targets : List (String × InvokeOutcome)) : Option CleaningResult :=
  if targets.isEmpty then none
  else some (summaryResult targets.length (runBatch targets))

/-- Embeds `App.tsx` lines 95-98: `name.toLowerCase().endsWith('.ma') ||
name.toLowerCase().endsWith('.mb')`. -/
def isMayaFile (name : String) : Bool :=
  endsList ".ma".data (lowerCl name.data) || endsList ".mb".data (lowerCl name.data)

/-- Embeds `App.tsx` lines 86-112 (`handleDrop`): the dropped items' FILE NAMES
(`file.name`, line 91) are filtered to Maya files; a non-empty match
replaces the selection, otherwise the previous selection is kept. -/
def handleDrop (droppedNames prevSelected : List String) : List String :=
  if droppedNames.isEmpty then prevSelected
  else
    let mayaFiles := droppedNames.filter isMayaFile
    if mayaFiles.isEmpty then prevSelected else mayaFiles

/-- A file object as seen by `handleFileInputChange` (`App.tsx` lines
125-162): an optional Tauri-provided `path`, an optional (possibly
absent/empty, hence `Option`) `webkitRelativePath`, and the base `name`. -/
structure PickedFile where
  path : Option String
  webkitRelativePath : Option String
  name : String
deriving DecidableEq

/-- Embeds `App.tsx` line 141: `file.path || file.webkitRelativePath || file.name`. -/
def pickedPath (f : PickedFile) : String :=
  f.path.getD (f.webkitRelativePath.getD f.name)

/-- Modelled from the spec: "absolute file path" (§6, clean-file input).
A POSIX path is absolute when it starts with a separator; a Windows path
when it starts with a separator or a drive letter followed by a colon.
The notion itself is not defined anywhere under `src/`. -/
def isAbsolutePath (p : String) : Bool :=
  match p.data with
  | '/' :: _ => true
  | '\\' :: _ => true
  | c :: ':' :: _ => c.isAlpha
  | _ => false

/-- Kind of a parsed node (spec §3): script-bearing or generic. -/
inductive NodeKind where
  | scriptNode
  | generic
deriving DecidableEq

/-- Modelled from the spec: a `Node` of a `SceneDocument` (§3), with its
`kind`, its `raw-source` (the exact byte span it occupies in the original
file) and its decoded `embedded-code` for script-bearing kinds.  The Rust
engine implementing this is not under `src/`. -/
structure Node where
  kind : NodeKind
  rawSource : List Char
  embeddedCode : Option (List Char)
deriving DecidableEq

/-- Modelled from the spec: an `InfectionSignature` (§3): an id, a human
label and a predicate over a node's embedded code — here a substring
marker, the simplest of the predicate forms the spec enumerates. -/
structure InfectionSignature where
  id : String
  label : String
  marker : List Char
deriving DecidableEq

/-- Modelled from the spec: a per-node `Verdict` (§3). -/
inductive Verdict where
  | clean
  | malicious (sigId : String)
  | suspicious (reason : String)
deriving DecidableEq

/-- Modelled from the spec: the text-dialect statement splitter of the
Scene Parser (§4.1): a single forward pass grouping input into logical
statements terminated by `;` (continuation lines stay inside their
statement), each captured as the exact span it occupies. -/
def splitStatements (cur : List Char) : List Char → List (List Char)
  | [] => if cur.isEmpty then [] else [cur.reverse]
  | c :: cs =>
    if c = ';' then (cur.reverse ++ [c]) :: splitStatements [] cs
    else splitStatements (c :: cur) cs

/-- Modelled from the spec: statement classification (§4.1): a statement
whose node type is a scripting type is script-bearing; its full source
text is captured as embedded code. -/
def mkNode (stmt : List Char) : Node :=
  if containsSub "scriptNode".data stmt then
    { kind := .scriptNode, rawSource := stmt, embeddedCode := some stmt }
  else
    { kind := .generic, rawSource := stmt, embeddedCode := none }

/-- Modelled from the spec: the Scene Parser for the text dialect (§4.1):
raw bytes to an ordered node list, never losing information. -/
def parse (input : List Char) : List Node :=
  (splitStatements [] input).map mkNode

/-- Modelled from the spec: the Detector (§4.3): nodes without embedded
code are always clean; otherwise the signatures are evaluated in database
order, stopping at the first match. -/
def verdictOf (sigs : List InfectionSignature) (n : Node) : Verdict :=
  match n.embeddedCode with
  | none => .clean
  | some code =>
    match sigs.find? (fun s => containsSub s.marker code) with
    | some s => .malicious s.id
    | none => .clean

/-- A verdict that causes removal; suspicious nodes are never removed. -/
def isMalicious : Verdict → Bool
  | .malicious _ => true
  | _ => false

/-- Modelled from the spec: the Remediator's output buffer (§4.4): the
original document with every malicious node's raw-source span removed and
every other span kept verbatim, rebuilt in a single reconstruction pass. -/
def remediate (sigs : List InfectionSignature) (doc : List Node) : List Char :=
  ((doc.filter fun n => !(isMalicious (verdictOf sigs n))).map Node.rawSource).flatten

/-- Modelled from the spec: the per-file `cleaned_count` (§4.6): the
number of nodes actually removed as malicious. -/
def cleanedCountOf (sigs : List InfectionSignature) (doc : List Node) : Nat :=
  (doc.filter fun n => isMalicious (verdictOf sigs n)).length

/-- Modelled from the spec: the clean-file pipeline on one in-memory
buffer (§2 data flow): parse, detect, remediate; returns the rewritten
buffer and the number of removed nodes. -/
def cleanFileBuffer (sigs : List InfectionSignature) (input : List Char) :
    List Char × Nat :=
  (remediate sigs (parse input), cleanedCountOf sigs (parse input))

/-- Specification-side count: the number of targets whose clean
invocation succeeded (returned a `CleaningResult`). -/
def countOk : List (String × InvokeOutcome) → Nat
  | [] => 0
  | (_, .ok _) :: ts => countOk ts + 1
  | (_, .err _) :: ts => countOk ts

/-- Specification-side sum: the per-file `cleaned_count` values returned
by the successful invocations, added up. -/
def sumCleaned : List (String × InvokeOutcome) → Int
  | [] => 0
  | (_, .ok r) :: ts => r.cleaned_count + sumCleaned ts
  | (_, .err _) :: ts => sumCleaned ts

/-- Specification-side predicate: `s` ends case-insensitively in `suf`
(both sides lowered, suffix comparison). -/
def endsWithCI (s suf : String) : Bool :=
  endsList (lowerCl suf.data) (lowerCl s.data)

/-- A sample backend result for a file in which nothing was found:
one "Processing" line and one "No issues found" line, zero removals. -/
def sampleCleanResult : CleaningResult :=
  { status := "success", message := "No issues found"
    details := ["Processing Maya file scene.ma", "No issues found"]
    cleaned_count := 0, processed_count := 1 }

/-- A sample backend result for an infected file: one removal. -/
def sampleInfectedResult : CleaningResult :=
  { status := "success", message := "Removed 1 infections"
    details := ["Removed malicious scriptNode vaccine_gene"]
    cleaned_count := 1, processed_count := 1 }

/-- The `cleaned_count` a target's invocation contributed (0 for a
thrown error). -/
def okCleaned : InvokeOutcome → Int
  | .ok r => r.cleaned_count
  | .err _ => 0

/-- Scenario E's batch: one infected file and one clean file. -/
def twoFileBatch : List (String × InvokeOutcome) :=
  [("a.ma", .ok sampleInfectedResult), ("b.ma", .ok sampleCleanResult)]

/-- A one-entry signature database for concrete runs of the engine. -/
def sampleSigs : List InfectionSignature :=
  [{ id := "S1", label := "known malware marker", marker := "VIRUS".data }]

/-- A concrete scene buffer with no script nodes. -/
def sampleCleanFile : List Char := "createNode transform;\n".data

theorem processFile_log_eq (st : BatchState) (p : String) (o : InvokeOutcome) :
    ∃ extra, (processFile st p o).log = st.log ++ ("Cleaning file: " ++ p) :: extra := by
  cases o <;> exact ⟨_, rfl⟩

theorem processFile_log_mono (st : BatchState) (p : String) (o : InvokeOutcome)
    (x : String) (hx : x ∈ st.log) : x ∈ (processFile st p o).log := by
  obtain ⟨extra, he⟩ := processFile_log_eq st p o
  rw [he]
  exact List.mem_append_left _ hx

theorem processFile_log_header (st : BatchState) (p : String) (o : InvokeOutcome) :
    ("Cleaning file: " ++ p) ∈ (processFile st p o).log := by
  obtain ⟨extra, he⟩ := processFile_log_eq st p o
  rw [he]
  exact List.mem_append_right _ (List.mem_cons_self _ _)

theorem processFile_successCount (st : BatchState) (p : String) (r : CleaningResult) :
    (processFile st p (.ok r)).successCount = st.successCount + 1 := rfl

theorem processFile_successCount_err (st : BatchState) (p e : String) :
    (processFile st p (.err e)).successCount = st.successCount := rfl

theorem foldl_stepB_counts (ts : List (String × InvokeOutcome)) : ∀ st : BatchState,
    (ts.foldl stepB st).successCount = st.successCount + countOk ts ∧
    (ts.foldl stepB st).totalIssuesFixed = st.totalIssuesFixed + sumCleaned ts := by
  induction ts with
  | nil => intro st; simp [countOk, sumCleaned]
  | cons t ts ih =>
    intro st
    obtain ⟨p, o⟩ := t
    cases o with
    | ok r =>
      obtain ⟨ih1, ih2⟩ := ih (stepB st (p, .ok r))
      refine ⟨?_, ?_⟩
      · rw [List.foldl_cons, ih1]
        simp only [stepB, processFile, countOk]
        omega
      · rw [List.foldl_cons, ih2]
        simp only [stepB, processFile, sumCleaned]
        ring
    | err e =>
      obtain ⟨ih1, ih2⟩ := ih (stepB st (p, .err e))
      exact ⟨by rw [List.foldl_cons, ih1]; rfl, by rw [List.foldl_cons, ih2]; rfl⟩

theorem foldl_stepB_log_mono (ts : List (String × InvokeOutcome)) :
    ∀ (st : BatchState) (x : String), x ∈ st.log → x ∈ (ts.foldl stepB st).log := by
  induction ts with
  | nil => intro st x hx; exact hx
  | cons t ts ih =>
    intro st x hx
    exact ih _ x (processFile_log_mono st t.1 t.2 x hx)

theorem foldl_stepB_header (ts : List (String × InvokeOutcome)) :
    ∀ (st : BatchState), ∀ q ∈ ts, ("Cleaning file: " ++ q.1) ∈ (ts.foldl stepB st).log := by
  induction ts with
  | nil => intro st q hq; cases hq
  | cons t ts ih =>
    intro st q hq
    rcases List.mem_cons.mp hq with h | h
    · subst h
      exact foldl_stepB_log_mono ts _ _ (processFile_log_header st q.1 q.2)
    · exact ih _ q h

theorem runBatch_successCount (ts : List (String × InvokeOutcome)) :
    (runBatch ts).successCount = countOk ts := by
  have h := (foldl_stepB_counts ts ⟨[], 0, 0⟩).1
  simpa [runBatch] using h

theorem runBatch_totalIssuesFixed (ts : List (String × InvokeOutcome)) :
    (runBatch ts).totalIssuesFixed = sumCleaned ts := by
  have h := (foldl_stepB_counts ts ⟨[], 0, 0⟩).2
  simpa [runBatch] using h

theorem runBatch_header (ts : List (String × InvokeOutcome)) (q : String × InvokeOutcome)
    (hq : q ∈ ts) : ("Cleaning file: " ++ q.1) ∈ (runBatch ts).log :=
  foldl_stepB_header ts _ q hq

theorem cleanSelectedFiles_eq_some (ts : List (String × InvokeOutcome)) (h : ts ≠ []) :
    cleanSelectedFiles ts = some (summaryResult ts.length (runBatch ts)) := by
  simp [cleanSelectedFiles, List.isEmpty_iff, h]

theorem sumCleaned_nonneg (ts : List (String × InvokeOutcome))
    (h : ∀ t ∈ ts, 0 ≤ okCleaned t.2) : 0 ≤ sumCleaned ts := by
  induction ts with
  | nil => simp [sumCleaned]
  | cons t ts ih =>
    obtain ⟨p, o⟩ := t
    have h2 := ih fun t ht => h t (List.mem_cons_of_mem _ ht)
    cases o with
    | ok r =>
      have h1 := h (p, .ok r) (List.mem_cons_self _ _)
      simp only [okCleaned] at h1
      simp only [sumCleaned]
      omega
    | err e => simpa [sumCleaned] using h2

/-- C1: the claim is false on the code: `cleanSelectedFiles` hardcodes
`status: "success"` (App.tsx line 205).  In a batch whose only
invocation throws, no target succeeds (`processed_count = 0`), yet the
summary's status is `"success"`, not the claimed `"error"`. -/
theorem c1_status_counterexample :
    (cleanSelectedFiles [("a.ma", InvokeOutcome.err "boom")]).map
      (fun r => (r.status, r.processed_count)) = some ("success", 0) ∧
    "success" ≠ "error" := ⟨rfl, by decide⟩

/-- C1 (amended): for every non-empty batch, the summary
`CleaningResult`'s `status` is the literal `"success"`, regardless of how
many targets failed. -/
theorem c1_status_always_success (ts : List (String × InvokeOutcome)) (h : ts ≠ []) :
    ∃ r, cleanSelectedFiles ts = some r ∧ r.status = "success" :=
  ⟨_, cleanSelectedFiles_eq_some ts h, rfl⟩

theorem c1_status_always_success_witness :
    ∃ r, cleanSelectedFiles [("a.ma", InvokeOutcome.err "boom")] = some r ∧
      r.status = "success" :=
  c1_status_always_success _ (by decide)

/-- C2: a failure on one file never aborts the batch: with a throwing
target anywhere in the list, a summary result is still produced, and
every remaining target is still processed (its "Cleaning file:" line is
appended to the operation log). -/
theorem c2_no_abort (ts1 ts2 : List (String × InvokeOutcome)) (p e : String) :
    (∃ r, cleanSelectedFiles (ts1 ++ (p, InvokeOutcome.err e) :: ts2) = some r) ∧
    ∀ q ∈ ts2, ("Cleaning file: " ++ q.1) ∈
      (runBatch (ts1 ++ (p, InvokeOutcome.err e) :: ts2)).log := by
  constructor
  · exact ⟨_, cleanSelectedFiles_eq_some _ (by simp)⟩
  · intro q hq
    exact runBatch_header _ q (by simp [hq])

theorem c2_no_abort_witness :
    ("Cleaning file: " ++ "b.ma") ∈
      (runBatch [("a.ma", InvokeOutcome.err "boom"),
                 ("b.ma", InvokeOutcome.ok sampleCleanResult)]).log :=
  (c2_no_abort [] [("b.ma", InvokeOutcome.ok sampleCleanResult)] "a.ma" "boom").2
    ("b.ma", InvokeOutcome.ok sampleCleanResult) (by decide)

/-- C3: the summary's `processed_count` is the number of targets whose
invocation succeeded, and its `cleaned_count` is the sum of the per-file
`cleaned_count` values those successful invocations returned. -/
theorem c3_summary_counts (ts : List (String × InvokeOutcome)) (h : ts ≠ []) :
    ∃ r, cleanSelectedFiles ts = some r ∧
      r.processed_count = (countOk ts : Int) ∧ r.cleaned_count = sumCleaned ts := by
  refine ⟨_, cleanSelectedFiles_eq_some ts h, ?_, ?_⟩
  · show ((runBatch ts).successCount : Int) = (countOk ts : Int)
    rw [runBatch_successCount]
  · show (runBatch ts).totalIssuesFixed = sumCleaned ts
    exact runBatch_totalIssuesFixed ts

theorem c3_summary_counts_witness :
    ∃ r, cleanSelectedFiles twoFileBatch = some r ∧
      r.processed_count = 2 ∧ r.cleaned_count = 1 := by
  obtain ⟨r, h1, h2, h3⟩ := c3_summary_counts twoFileBatch (by decide)
  exact ⟨r, h1, by rw [h2]; decide, by rw [h3]; decide⟩

/-- C4: the claim is false on the code: the summary result hardcodes
`details: []` (App.tsx line 207).  A batch with one successfully
processed target returns a summary with `processed_count = 1` but zero
lines in `details`. -/
theorem c4_details_counterexample :
    (cleanSelectedFiles [("a.ma", InvokeOutcome.ok sampleCleanResult)]).map
      (fun r => (r.details.length, r.processed_count)) = some (0, 1) := rfl

/-- C4 (amended): the audit trail lives in the operation log, not in the
returned result: every processed target contributes at least one log line
(its "Cleaning file:" header, followed by detail lines, a "No issues
found" line, or an error line), while the summary result's `details`
list is always empty. -/
theorem c4_audit_in_log (ts : List (String × InvokeOutcome)) (h : ts ≠ []) :
    ∃ r, cleanSelectedFiles ts = some r ∧ r.details = [] ∧
      ∀ q ∈ ts, ("Cleaning file: " ++ q.1) ∈ (runBatch ts).log :=
  ⟨_, cleanSelectedFiles_eq_some ts h, rfl, fun q hq => runBatch_header ts q hq⟩

theorem c4_audit_in_log_witness :
    ∃ r, cleanSelectedFiles [("a.ma", InvokeOutcome.ok sampleCleanResult)] = some r ∧
      r.details = [] ∧
      ∀ q ∈ [("a.ma", InvokeOutcome.ok sampleCleanResult)],
        ("Cleaning file: " ++ q.1) ∈
          (runBatch [("a.ma", InvokeOutcome.ok sampleCleanResult)]).log :=
  c4_audit_in_log _ (by decide)

/-- C5: every summary `CleaningResult` has exactly the five fields
`status`, `message`, `details`, `cleaned_count`, `processed_count`
(structure eta), and — provided each backend result obeys the wire
contract `cleaned_count >= 0` — both counters are non-negative.  In this
pure embedding a returned result is never mutated: every later use
(e.g. the `message.replace` at App.tsx line 340) builds a new value. -/
theorem c5_result_shape (ts : List (String × InvokeOutcome)) (hne : ts ≠ [])
    (hwire : ∀ t ∈ ts, 0 ≤ okCleaned t.2) :
    ∃ r, cleanSelectedFiles ts = some r ∧
      r = CleaningResult.mk r.status r.message r.details r.cleaned_count r.processed_count ∧
      0 ≤ r.cleaned_count ∧ 0 ≤ r.processed_count := by
  refine ⟨_, cleanSelectedFiles_eq_some ts hne, rfl, ?_, ?_⟩
  · show 0 ≤ (runBatch ts).totalIssuesFixed
    rw [runBatch_totalIssuesFixed]
    exact sumCleaned_nonneg ts hwire
  · show 0 ≤ ((runBatch ts).successCount : Int)
    exact Int.natCast_nonneg _

theorem c5_result_shape_witness :
    ∃ r, cleanSelectedFiles twoFileBatch = some r ∧
      r = CleaningResult.mk r.status r.message r.details r.cleaned_count r.processed_count ∧
      0 ≤ r.cleaned_count ∧ 0 ≤ r.processed_count :=
  c5_result_shape twoFileBatch (by decide) (by decide)

/-- C6: the claim is false on the code: `handleDrop` keeps only
`file.name` (App.tsx line 91, "Get filenames only for now"), so dropping
a Maya file selects its bare name, which is not an absolute path; that
string is then passed verbatim as `filePath` to `clean_maya_scene`.
The picker's fallback (line 141) likewise degrades to `file.name`. -/
theorem c6_absolute_counterexample :
    handleDrop ["scene.ma"] [] = ["scene.ma"] ∧
    isAbsolutePath "scene.ma" = false ∧
    pickedPath { path := none, webkitRelativePath := none, name := "scene.ma" } =
      "scene.ma" :=
  ⟨rfl, rfl, rfl⟩

/-- C6 (amended): the string passed as the cleaning target is taken
verbatim from the selection: after a drop it is one of the dropped file
names (or a previously selected string); no path resolution or
absolutization is performed, so it need not be an absolute path. -/
theorem c6_target_verbatim (dropped prev : List String) (f : String)
    (h : f ∈ handleDrop dropped prev) : f ∈ dropped ∨ f ∈ prev := by
  simp only [handleDrop] at h
  split at h
  · exact Or.inr h
  · split at h
    · exact Or.inr h
    · exact Or.inl (List.mem_of_mem_filter h)

theorem c6_target_verbatim_witness :
    "scene.ma" ∈ ["scene.ma"] ∨ "scene.ma" ∈ ([] : List String) :=
  c6_target_verbatim ["scene.ma"] [] "scene.ma" (by decide)

theorem isMayaFile_iff_suffixCI (x : String) :
    isMayaFile x = (endsWithCI x ".ma" || endsWithCI x ".mb") := by
  have h1 : lowerCl ".ma".data = ".ma".data := by decide
  have h2 : lowerCl ".mb".data = ".mb".data := by decide
  rw [isMayaFile, endsWithCI, endsWithCI, h1, h2]

/-- C9: dropping a non-empty set of files selects exactly the dropped
names ending case-insensitively in ".ma" or ".mb"; when no dropped name
matches, the previous selection is kept unchanged. -/
theorem c9_drop_selection (dropped prev : List String) (hne : dropped ≠ []) :
    ((∃ x ∈ dropped, endsWithCI x ".ma" = true ∨ endsWithCI x ".mb" = true) →
      handleDrop dropped prev =
        dropped.filter fun y => endsWithCI y ".ma" || endsWithCI y ".mb") ∧
    ((∀ x ∈ dropped, endsWithCI x ".ma" = false ∧ endsWithCI x ".mb" = false) →
      handleDrop dropped prev = prev) := by
  have hfilter : dropped.filter isMayaFile =
      dropped.filter fun y => endsWithCI y ".ma" || endsWithCI y ".mb" :=
    List.filter_congr fun a _ => isMayaFile_iff_suffixCI a
  have hde : dropped.isEmpty = false := by
    cases dropped with
    | nil => exact absurd rfl hne
    | cons a l => rfl
  constructor
  · rintro ⟨x, hx, hmatch⟩
    have hxf : x ∈ dropped.filter isMayaFile := by
      refine List.mem_filter.mpr ⟨hx, ?_⟩
      rw [isMayaFile_iff_suffixCI]
      rcases hmatch with h | h <;> simp [h]
    have hfe : (dropped.filter isMayaFile).isEmpty = false := by
      cases hh : dropped.filter isMayaFile with
      | nil => rw [hh] at hxf; cases hxf
      | cons a l => rfl
    simp only [handleDrop, hde, hfe, Bool.false_eq_true, if_false]
    exact hfilter
  · intro hall
    have hfe : dropped.filter isMayaFile = [] := by
      rw [List.filter_eq_nil_iff]
      intro a ha
      rw [isMayaFile_iff_suffixCI]
      obtain ⟨hma, hmb⟩ := hall a ha
      simp [hma, hmb]
    simp [handleDrop, hde, hfe]

theorem c9_drop_selection_witness :
    handleDrop ["SCENE.MA", "notes.txt"] ["old"] = ["SCENE.MA"] := by
  have h := (c9_drop_selection ["SCENE.MA", "notes.txt"] ["old"] (by decide)).1
    ⟨"SCENE.MA", by decide, by decide⟩
  rw [h]; decide

theorem leadsWith_self_append (p t : List Char) : leadsWith p (p ++ t) = true := by
  induction p with
  | nil => rfl
  | cons a as ih => simp [leadsWith, ih]

theorem eq_nil_of_leadsWith_nil (p : List Char) (h : leadsWith p [] = true) : p = [] := by
  cases p with
  | nil => rfl
  | cons a as => simp [leadsWith] at h

theorem replaceFirstL_of_leadsWith (pat rep s : List Char) (h : leadsWith pat s = true) :
    replaceFirstL pat rep s = rep ++ s.drop pat.length := by
  cases s with
  | nil =>
    have hp := eq_nil_of_leadsWith_nil pat h
    subst hp
    simp [replaceFirstL, leadsWith]
  | cons c cs => simp [replaceFirstL, h]

theorem replaceFirstL_at_first_occurrence (pat rep : List Char) : ∀ a b : List Char,
    (∀ i, i < a.length → leadsWith pat ((a ++ pat ++ b).drop i) = false) →
    replaceFirstL pat rep (a ++ pat ++ b) = a ++ rep ++ b := by
  intro a
  induction a with
  | nil =>
    intro b _
    rw [List.nil_append,
      replaceFirstL_of_leadsWith pat rep _ (leadsWith_self_append pat b),
      List.drop_left]
    rfl
  | cons c a ih =>
    intro b h
    have h0 : leadsWith pat (c :: (a ++ pat ++ b)) = false := by
      simpa using h 0 (Nat.succ_pos _)
    have hrest : ∀ i, i < a.length → leadsWith pat ((a ++ pat ++ b).drop i) = false := by
      intro i hi
      simpa using h (i + 1) (Nat.succ_lt_succ hi)
    show replaceFirstL pat rep (c :: (a ++ pat ++ b)) = c :: (a ++ rep ++ b)
    have hih := ih b hrest
    simp only [List.append_assoc] at h0 hih
    simp [replaceFirstL, h0, hih]

theorem replaceFirstL_of_no_occurrence (pat rep : List Char) :
    ∀ s, containsSub pat s = false → replaceFirstL pat rep s = s := by
  intro s
  induction s with
  | nil =>
    intro h
    simp only [containsSub] at h
    simp [replaceFirstL, h]
  | cons c cs ih =>
    intro h
    simp only [containsSub, Bool.or_eq_false_iff] at h
    simp [replaceFirstL, h.1, ih h.2]

/-- C10: the claim is false as stated: a summary message only gets the
`infections -> issues` replacement (App.tsx lines 227, 340); the first
occurrence of `infected` in a displayed message is NOT replaced by
`affected`, while the same string shown as a detail line would be. -/
theorem c10_message_counterexample :
    displayMessage "1 file infected" = "1 file infected" ∧
    displayDetail "1 file infected" = "1 file affected" ∧
    "1 file infected" ≠ "1 file affected" := ⟨rfl, rfl, by decide⟩

/-- C10 (amended): the replacement primitive used at every display site
(JS `replace` with a string pattern, embedded as `replaceFirstL`)
rewrites exactly the first occurrence of the pattern and reproduces
everything after it verbatim, so later occurrences are displayed
unchanged; detail lines get both the `infections -> issues` and the
`infected -> affected` first-occurrence replacements, while summary
messages get only the former — a message without `infections` is shown
verbatim. -/
theorem c10_first_occurrence_only :
    (∀ pat rep a b : List Char,
      (∀ i, i < a.length → leadsWith pat ((a ++ pat ++ b).drop i) = false) →
      replaceFirstL pat rep (a ++ pat ++ b) = a ++ rep ++ b) ∧
    (∀ s : String, containsSub "infections".data s.data = false →
      displayMessage s = s) := by
  constructor
  · exact replaceFirstL_at_first_occurrence
  · intro s h
    show String.mk (replaceFirstL "infections".data "issues".data s.data) = s
    rw [replaceFirstL_of_no_occurrence _ _ _ h]

theorem c10_first_occurrence_only_witness :
    replaceFirstL "infections".data "issues".data
        ("2 ".data ++ "infections".data ++ ", 3 infections left".data) =
      "2 ".data ++ "issues".data ++ ", 3 infections left".data ∧
    displayMessage "all infected" = "all infected" :=
  ⟨c10_first_occurrence_only.1 _ _ _ _ (by decide),
   c10_first_occurrence_only.2 _ (by decide)⟩

theorem splitStatements_flatten : ∀ (s cur : List Char),
    (splitStatements cur s).flatten = cur.reverse ++ s := by
  intro s
  induction s with
  | nil =>
    intro cur
    by_cases h : cur.isEmpty
    · have hc : cur = [] := by
        cases cur with
        | nil => rfl
        | cons a l => simp [List.isEmpty] at h
      subst hc
      simp [splitStatements]
    · simp [splitStatements, h]
  | cons c cs ih =>
    intro cur
    by_cases h : c = ';'
    · subst h
      simp [splitStatements, ih []]
    · simpa [splitStatements, h] using ih (c :: cur)

theorem mkNode_rawSource (stmt : List Char) : (mkNode stmt).rawSource = stmt := by
  by_cases h : containsSub "scriptNode".data stmt <;> simp [mkNode, h]

theorem parse_flatten_rawSource (input : List Char) :
    ((parse input).map Node.rawSource).flatten = input := by
  have h : (parse input).map Node.rawSource = splitStatements [] input := by
    rw [parse, List.map_map]
    have hid : Node.rawSource ∘ mkNode = id := funext fun stmt => mkNode_rawSource stmt
    rw [hid, List.map_id]
  rw [h]
  simpa using splitStatements_flatten input []

theorem remediate_of_all_clean (sigs : List InfectionSignature) (input : List Char)
    (h : ∀ n ∈ parse input, isMalicious (verdictOf sigs n) = false) :
    remediate sigs (parse input) = input := by
  rw [remediate]
  have hf : (parse input).filter (fun n => !(isMalicious (verdictOf sigs n))) =
      parse input := by
    rw [List.filter_eq_self]
    intro a ha
    simp [h a ha]
  rw [hf]
  exact parse_flatten_rawSource input

theorem cleanedCount_zero_iff (sigs : List InfectionSignature) (doc : List Node) :
    cleanedCountOf sigs doc = 0 ↔ ∀ n ∈ doc, isMalicious (verdictOf sigs n) = false := by
  rw [cleanedCountOf, List.length_eq_zero, List.filter_eq_nil_iff]
  simp

/-- C7: the parser never loses information — the concatenation of a
parsed document's raw-source spans in original order is the original
buffer — and on a document in which no node is flagged malicious the
Remediator's output buffer is byte-identical to the input. -/
theorem c7_reconstruction (sigs : List InfectionSignature) (input : List Char)
    (h : ∀ n ∈ parse input, isMalicious (verdictOf sigs n) = false) :
    ((parse input).map Node.rawSource).flatten = input ∧
    remediate sigs (parse input) = input :=
  ⟨parse_flatten_rawSource input, remediate_of_all_clean sigs input h⟩

theorem c7_reconstruction_witness :
    ((parse sampleCleanFile).map Node.rawSource).flatten = sampleCleanFile ∧
    remediate sampleSigs (parse sampleCleanFile) = sampleCleanFile :=
  c7_reconstruction sampleSigs sampleCleanFile (by decide)

/-- C8: idempotence — if cleaning a file removes nothing
(`cleaned_count = 0`, the file is already clean), then cleaning its
output again also removes nothing and yields a byte-identical buffer. -/
theorem c8_idempotent (sigs : List InfectionSignature) (input : List Char)
    (h : (cleanFileBuffer sigs input).2 = 0) :
    (cleanFileBuffer sigs ((cleanFileBuffer sigs input).1)).2 = 0 ∧
    (cleanFileBuffer sigs ((cleanFileBuffer sigs input).1)).1 =
      (cleanFileBuffer sigs input).1 := by
  have hall : ∀ n ∈ parse input, isMalicious (verdictOf sigs n) = false :=
    (cleanedCount_zero_iff sigs (parse input)).mp h
  have hid : (cleanFileBuffer sigs input).1 = input :=
    remediate_of_all_clean sigs input hall
  rw [hid]
  exact ⟨h, hid⟩

theorem c8_idempotent_witness :
    (cleanFileBuffer sampleSigs ((cleanFileBuffer sampleSigs sampleCleanFile).1)).2 = 0 ∧
    (cleanFileBuffer sampleSigs ((cleanFileBuffer sampleSigs sampleCleanFile).1)).1 =
      (cleanFileBuffer sampleSigs sampleCleanFile).1 :=
  c8_idempotent sampleSigs sampleCleanFile (by decide)

end MayaCleaner
